import Mathlib

/-!
Verification of the interactive reading / flashcard trainer.

Shallow embedding of the logic-bearing code:
- saved-word collection operations (src/App.tsx),
- the flashcard review queue (src/components/VocabularyView.tsx),
- the DeepSeek call retry loop and response assembly (src/services/aiService.ts),
- sentence-context resolution, the word-click dispatcher and the
  tokenizer/annotator of the interactive text view (src/unnamed/part_000,
  the InteractiveText component).

Strings are modelled as lists of characters at the places where the code
works character by character; JavaScript primitives (toLowerCase, trim,
includes, split with a capture group) are embedded explicitly below.
Recursive scanners are written with an explicit fuel argument equal to the
input length so that every definition is executable by the kernel.
-/

namespace ETS

/-! Character classes and JavaScript string primitives. -/

/-- Test used all over the tokenizer, mirroring the regular expression
test for an ASCII letter or digit (part_000 lines 538, 551, 565). -/
def isAsciiAlnum (c : Char) : Bool :=
  decide ((97 ≤ c.toNat ∧ c.toNat ≤ 122) ∨ (65 ≤ c.toNat ∧ c.toNat ≤ 90) ∨
    (48 ≤ c.toNat ∧ c.toNat ≤ 57))

/-- Word-character class of the tokenizer split (part_000 line 528):
ASCII letters and digits, the Latin-1 letters in the range 192-255,
the apostrophe (39) and the hyphen (45). -/
def isWordChar (c : Char) : Bool :=
  isAsciiAlnum c || decide (192 ≤ c.toNat ∧ c.toNat ≤ 255) ||
    decide (c.toNat = 39) || decide (c.toNat = 45)

/-- Whitespace as recognised by the JavaScript trim (space, tab, LF, VT, FF, CR, NBSP). -/
def isJsSpace (c : Char) : Bool :=
  decide (c.toNat = 32 ∨ c.toNat = 9 ∨ c.toNat = 10 ∨ c.toNat = 11 ∨
    c.toNat = 12 ∨ c.toNat = 13 ∨ c.toNat = 160)

/-- JavaScript toLowerCase restricted to the Basic Latin and Latin-1 range,
which covers every character the word class can produce: uppercase ASCII
letters and the Latin-1 uppercase letters (192-222 except 215) map down by 32. -/
def jsLowerChar (c : Char) : Char :=
  if 65 ≤ c.toNat ∧ c.toNat ≤ 90 then Char.ofNat (c.toNat + 32)
  else if 192 ≤ c.toNat ∧ c.toNat ≤ 222 ∧ c.toNat ≠ 215 then Char.ofNat (c.toNat + 32)
  else c

/-- Lowercasing of a character list. -/
def jsLowerL (l : List Char) : List Char := l.map jsLowerChar

/-- Lowercasing of a string. -/
def jsLowerS (s : String) : String := String.mk (jsLowerL s.data)

/-- JavaScript trim on a character list: strip leading and trailing whitespace. -/
def jsTrim (l : List Char) : List Char :=
  ((l.dropWhile isJsSpace).reverse.dropWhile isJsSpace).reverse

/-- Contiguous-run search: does the needle occur as a contiguous run of the
haystack?  Mirrors the JavaScript includes method. -/
def containsRun {α : Type} [DecidableEq α] : List α → List α → Bool
  | [], needle => needle.isEmpty
  | h :: t, needle => needle.isPrefixOf (h :: t) || containsRun t needle

/-- JavaScript includes on character lists. -/
def strIncludes (hay needle : List Char) : Bool := containsRun hay needle

/-! Data model (src/types.ts).  Optional string fields are modelled with the
empty string standing for an absent value, matching how the code tests them
for truthiness. -/

structure VocabularyItem where
  word : String
  definition : String := ""
  pronunciation : String := ""
  type : String := ""
  translation : String := ""
  context : String := ""
  cefr : String := ""
deriving DecidableEq

structure TokenUsage where
  promptTokens : Nat
  responseTokens : Nat
  totalTokens : Nat
deriving DecidableEq

/-! Saved-word collection operations (src/App.tsx lines 60-76) and the
membership test of the popover (src/unnamed/part_000 lines 523-525). -/

/-- Embedding of handleToggleSaveWord (src/App.tsx lines 60-68): if some saved
entry has the exact same word string, drop every such entry, else append. -/
def handleToggleSaveWord (word : VocabularyItem) (prev : List VocabularyItem) :
    List VocabularyItem :=
  if prev.any (fun w => w.word == word.word) then
    prev.filter (fun w => w.word != word.word)
  else
    prev ++ [word]

/-- Embedding of handleRemoveSavedWord (src/App.tsx lines 74-76). -/
def handleRemoveSavedWord (wordStr : String) (prev : List VocabularyItem) :
    List VocabularyItem :=
  prev.filter (fun w => w.word != wordStr)

/-- Embedding of isSaved (src/unnamed/part_000 lines 523-525). -/
def isSaved (savedWords : List VocabularyItem) (item : VocabularyItem) : Bool :=
  savedWords.any (fun w => w.word == item.word)

/-! Flashcard review queue (src/components/VocabularyView.tsx lines 82-115).
The learning state bundles the four pieces of React state the grading
handler touches; cards are an arbitrary inhabited type. -/

inductive Grade where
  | hard
  | good
  | easy
deriving DecidableEq

structure LearnState (α : Type) where
  studyQueue : List α
  currentCardIndex : Nat
  reviewed : Nat
  hard : Nat
deriving DecidableEq

/-- Embedding of handleGrade (VocabularyView.tsx lines 92-107): every grade
bumps reviewed and moves to the next index; a HARD grade additionally appends
the current card to the end of the queue and bumps the hard counter. -/
def handleGrade {α : Type} [Inhabited α] (s : LearnState α) (difficulty : Grade) :
    LearnState α :=
  let currentCard := s.studyQueue.getD s.currentCardIndex default
  match difficulty with
  | .hard =>
      { studyQueue := s.studyQueue ++ [currentCard]
        currentCardIndex := s.currentCardIndex + 1
        reviewed := s.reviewed + 1
        hard := s.hard + 1 }
  | _ =>
      { s with currentCardIndex := s.currentCardIndex + 1, reviewed := s.reviewed + 1 }

/-- State set up by startLearning (VocabularyView.tsx lines 86-88) once the
queue has been produced: index 0 and zeroed session counters. -/
def startLearningState {α : Type} (queue : List α) : LearnState α :=
  ⟨queue, 0, 0, 0⟩

/-- Terminal condition (VocabularyView.tsx line 109). -/
def isFinished {α : Type} (s : LearnState α) : Prop :=
  s.currentCardIndex ≥ s.studyQueue.length

instance {α : Type} (s : LearnState α) : Decidable (isFinished s) :=
  inferInstanceAs (Decidable (s.currentCardIndex ≥ s.studyQueue.length))

/-- Folding a sequence of grading events over the state. -/
def runGrades {α : Type} [Inhabited α] (s : LearnState α) (ds : List Grade) :
    LearnState α :=
  ds.foldl handleGrade s

/-! Shuffle used by startLearning (VocabularyView.tsx line 85):
the array copy is sorted with the comparator that returns a random value,
which is the classic single-comparator random sort.  Array.prototype.sort
leaves the algorithm to the engine; engines run an insertion sort on short
arrays, modelled here with each comparator call consuming one coin.  A true
coin stands for a negative comparator value (random below one half, keep the
probed order), a false coin for a positive one. -/

/-- Insert one element into the already-placed prefix, consuming one coin per
comparator call. -/
def insertCoin {α : Type} : List Bool → α → List α → List α × List Bool
  | coins, x, [] => ([x], coins)
  | [], x, l => (x :: l, [])
  | c :: cs, x, y :: ys =>
      if c then (x :: y :: ys, cs)
      else
        let p := insertCoin cs x ys
        (y :: p.1, p.2)

/-- Insertion sort driven by the random comparator coins. -/
def comparatorShuffle {α : Type} (coins : List Bool) (l : List α) : List α :=
  (l.foldl (fun acc x =>
    let p := insertCoin acc.2 x acc.1
    (p.1, p.2)) (([] : List α), coins)).1

/-- Queue produced by startLearning (VocabularyView.tsx line 85-86) under the
coin model of the random comparator. -/
def startLearningQueue {α : Type} (coins : List Bool) (filteredWords : List α) :
    List α :=
  comparatorShuffle coins filteredWords

/-- All coin sequences of a given length. -/
def coinLists : Nat → List (List Bool)
  | 0 => [[]]
  | n + 1 =>
      ((coinLists n).map (fun l => true :: l)) ++
        ((coinLists n).map (fun l => false :: l))

/-- Number of coin sequences of length n that shuffle the input into the
given output: with coins fair and independent, a fair shuffle must give
every permutation the same count. -/
def shuffleOutcomeCount (input outcome : List Nat) (n : Nat) : Nat :=
  (coinLists n).countP (fun cs => startLearningQueue cs input == outcome)

/-! DeepSeek call driver (src/services/aiService.ts lines 23-89).  One call
is an environment assigning to every attempt number the outcome of its fetch;
the parsed payload is abstracted to a number. -/

inductive AttemptOutcome where
  /-- Fetch resolved with response.ok and both json decodes succeed. -/
  | success (value : Nat)
  /-- Fetch resolved with response.ok but parsing the message content throws. -/
  | badJson (errMsg : String)
  /-- Fetch resolved with an error status; the message is the one the code
  throws for it (the server-provided error message or the status text). -/
  | httpError (status : Nat) (errMsg : String)
  /-- Fetch itself rejected (network-class failure), with the error message. -/
  | thrown (errMsg : String)
deriving DecidableEq

inductive CallResult where
  | ok (value : Nat)
  | error (msg : String)
deriving DecidableEq

/-- Observable trace of one callDeepSeek invocation: final result, number of
fetch attempts performed, and the list of delays (milliseconds) awaited. -/
structure CallTrace where
  result : CallResult
  attemptsUsed : Nat
  waits : List Nat
deriving DecidableEq

/-- Statuses the code retries directly (aiService.ts line 52). -/
def retryableStatus (status : Nat) : Bool :=
  decide (status = 429 ∨ 500 ≤ status)

/-- Test applied by the catch block (aiService.ts line 76): an error is
treated as network-class when its message contains fetch or network. -/
def msgRetryable (m : String) : Bool :=
  strIncludes m.data "fetch".data || strIncludes m.data "network".data

/-- Prepend one 2000 ms wait and one more attempt to a trace. -/
def withRetryWait (t : CallTrace) : CallTrace :=
  { result := t.result, attemptsUsed := t.attemptsUsed + 1, waits := 2000 :: t.waits }

/-- Embedding of the inner attempt function (aiService.ts lines 30-82),
recursing on the remaining retry budget.  With no budget left every failure
propagates; with budget, a 429 or 5xx status retries after a 2000 ms wait,
and every other throw - the http error message, a parse failure, or a fetch
rejection - is caught by the catch block of the same attempt and retried
exactly when its message contains fetch or network. -/
def attempt (env : Nat → AttemptOutcome) : Nat → Nat → CallTrace
  | idx, 0 =>
      match env idx with
      | .success v => ⟨.ok v, 1, []⟩
      | .badJson m => ⟨.error m, 1, []⟩
      | .httpError _ m => ⟨.error m, 1, []⟩
      | .thrown m => ⟨.error m, 1, []⟩
  | idx, rc + 1 =>
      match env idx with
      | .success v => ⟨.ok v, 1, []⟩
      | .badJson m =>
          if msgRetryable m then withRetryWait (attempt env (idx + 1) rc)
          else ⟨.error m, 1, []⟩
      | .httpError s m =>
          if retryableStatus s then withRetryWait (attempt env (idx + 1) rc)
          else if msgRetryable m then withRetryWait (attempt env (idx + 1) rc)
          else ⟨.error m, 1, []⟩
      | .thrown m =>
          if msgRetryable m then withRetryWait (attempt env (idx + 1) rc)
          else ⟨.error m, 1, []⟩

/-- Embedding of callDeepSeek (aiService.ts lines 23-89): a missing key fails
before any attempt; otherwise the attempt chain starts with a budget of three
additional attempts, and the outer catch re-wraps the message, substituting a
generic one only when the message is empty. -/
def callDeepSeek (env : Nat → AttemptOutcome) (apiKey : Option String) : CallTrace :=
  match apiKey with
  | none => ⟨.error "Please enter your DeepSeek API Key in Settings.", 0, []⟩
  | some _ =>
      let t := attempt env 0 3
      match t.result with
      | .ok v => ⟨.ok v, t.attemptsUsed, t.waits⟩
      | .error m =>
          ⟨.error (if m = "" then "Failed to connect to DeepSeek API. Please try again."
            else m), t.attemptsUsed, t.waits⟩

/-! Response assembly of analyzeCustomText (aiService.ts lines 110-118). -/

structure AnalyzeContent where
  title : String
  text : String
  vocabulary : List VocabularyItem
deriving DecidableEq

structure AnalyzeResult where
  title : String
  text : String
  vocabulary : List VocabularyItem
  usage : TokenUsage
deriving DecidableEq

/-- Embedding of the analyzeCustomText return value: the spread of the parsed
content followed by the later text key, which overrides the text the model
returned, and the usage record. -/
def analyzeCustomText (text : String) (content : AnalyzeContent) (usage : TokenUsage) :
    AnalyzeResult :=
  { title := content.title, text := text, vocabulary := content.vocabulary, usage := usage }

/-! Sentence-context resolution (src/unnamed/part_000 lines 457-466).
The code matches the pattern of one or more non-terminators followed by one
or more terminators, globally; when nothing matches, the whole text is the
single candidate sentence.  An unterminated trailing fragment is therefore
dropped whenever at least one full sentence matched. -/

/-- Sentence-terminal punctuation: period (46), exclamation (33), question (63). -/
def isSentTerm (c : Char) : Bool :=
  decide (c.toNat = 46 ∨ c.toNat = 33 ∨ c.toNat = 63)

/-- Fueled scanner for the global matches of the sentence pattern: skip
characters that cannot start a match, then take a maximal non-terminator run
followed by a maximal terminator run.  Each step consumes at least one
character, so fuel equal to the input length is always sufficient. -/
def sentMatchesF : Nat → List Char → List (List Char)
  | 0, _ => []
  | _, [] => []
  | fuel + 1, c :: t =>
      let body := (c :: t).takeWhile (fun x => !isSentTerm x)
      if body.isEmpty then sentMatchesF fuel ((c :: t).dropWhile isSentTerm)
      else
        let rest := (c :: t).dropWhile (fun x => !isSentTerm x)
        let terms := rest.takeWhile isSentTerm
        if terms.isEmpty then []
        else (body ++ terms) :: sentMatchesF fuel (rest.dropWhile isSentTerm)

/-- Global matches of the sentence pattern over the whole text. -/
def sentMatches (l : List Char) : List (List Char) :=
  sentMatchesF l.length l

/-- Candidate sentences of findSentence (part_000 line 459): the matches, or
the whole text when the match call returned nothing. -/
def sentencesOf (l : List Char) : List (List Char) :=
  match sentMatches l with
  | [] => [l]
  | ms => ms

/-- Loop body of findSentence (part_000 lines 460-464): return the trimmed
first sentence containing the target, comparing lowercased. -/
def firstSentenceWith (target : List Char) : List (List Char) → List Char
  | [] => []
  | s :: ss =>
      if strIncludes (jsLowerL s) (jsLowerL target) then jsTrim s
      else firstSentenceWith target ss

/-- Embedding of findSentence (part_000 lines 457-466). -/
def findSentence (fullText targetWord : List Char) : List Char :=
  firstSentenceWith targetWord (sentencesOf fullText)

/-- Sentence splitting as the specification words it: split on the three
terminators retaining the terminator, keeping a trailing fragment that lacks
one.  Stated from the specification for comparison with sentMatches. -/
def specSplitSentencesF : Nat → List Char → List (List Char)
  | 0, _ => []
  | _, [] => []
  | fuel + 1, c :: t =>
      let body := (c :: t).takeWhile (fun x => !isSentTerm x)
      let rest := (c :: t).dropWhile (fun x => !isSentTerm x)
      let terms := rest.takeWhile isSentTerm
      if terms.isEmpty then [c :: t]
      else (body ++ terms) :: specSplitSentencesF fuel (rest.dropWhile isSentTerm)

/-- Sentence list under the reading of the specification. -/
def specSplitSentences (l : List Char) : List (List Char) :=
  specSplitSentencesF l.length l

/-- Context resolution as the specification words it: trimmed first sentence
of the specification split containing the token, else empty. -/
def specFindSentence (fullText targetWord : List Char) : List Char :=
  firstSentenceWith targetWord (specSplitSentences fullText)

/-! Word-click dispatcher (src/unnamed/part_000 lines 468-521), with the
popover-position plumbing stripped and the outcome of the asynchronous
lookup passed in explicitly. -/

/-- Characters stripped from the clicked text (part_000 line 484). -/
def cleanPunct (c : Char) : Bool :=
  decide (c.toNat = 46 ∨ c.toNat = 44 ∨ c.toNat = 33 ∨ c.toNat = 63 ∨
    c.toNat = 59 ∨ c.toNat = 58 ∨ c.toNat = 34 ∨ c.toNat = 40 ∨ c.toNat = 41)

/-- Normalisation of the clicked text (part_000 line 484): trim, delete the
punctuation characters everywhere, lowercase. -/
def cleanClickedText (s : String) : String :=
  String.mk (jsLowerL ((jsTrim s.data).filter (fun c => !cleanPunct c)))

/-- Vocabulary map built in part_000 lines 385-391: a Map keyed by the
lowercased word, so a later entry with the same key overrides an earlier one. -/
def vocabMapGet (vocabulary : List VocabularyItem) (key : String) :
    Option VocabularyItem :=
  vocabulary.foldl (fun acc item => if jsLowerS item.word = key then some item else acc)
    none

/-- Word resolution of handleWordClick (part_000 lines 484-521): a cache hit
returns the cached entry, injecting the locally computed sentence context only
when the cached one is absent; on a cache miss a successful fetch gets the
locally computed context attached, and a failed fetch is caught and replaced
by the fallback item, so the caller always receives a displayable result. -/
def handleWordClickResult (vocabulary : List VocabularyItem) (text clickedText : String)
    (fetchResult : Except String VocabularyItem) : VocabularyItem :=
  let cleanText := cleanClickedText clickedText
  let currentContext := String.mk (findSentence text.data clickedText.data)
  match vocabMapGet vocabulary cleanText with
  | some cached =>
      { cached with context := if cached.context = "" then currentContext else cached.context }
  | none =>
      match fetchResult with
      | .ok result => { result with context := currentContext }
      | .error _ =>
          { word := clickedText
            definition := "Unable to translate. Check connection."
            translation := "Lỗi"
            type := "Unknown"
            context := currentContext }

/-! Tokenizer and annotator (src/unnamed/part_000 lines 527-621).
The segment splitter with a capture group yields alternating word and
non-word runs; the empty separator strings the JavaScript split inserts at
the edges render as empty spans and are skipped by every test, so the
embedding works with the maximal runs directly. -/

/-- Test for a token that counts as a word during phrase scanning
(part_000 lines 538, 551, 565): it contains an ASCII letter or digit. -/
def containsAlnum (t : List Char) : Bool := t.any isAsciiAlnum

/-- Test for a token whose trim is empty (part_000 line 533). -/
def isBlankTok (t : List Char) : Bool := t.all isJsSpace

/-- Fueled splitter into maximal runs of word / non-word characters,
mirroring the split on the word-class capture group (part_000 line 528). -/
def tokenizeSegF : Nat → List Char → List (List Char)
  | 0, _ => []
  | _, [] => []
  | fuel + 1, c :: t =>
      (c :: t).takeWhile (fun x => isWordChar x == isWordChar c) ::
        tokenizeSegF fuel ((c :: t).dropWhile (fun x => isWordChar x == isWordChar c))

/-- Token list of one segment. -/
def tokenizeSeg (l : List Char) : List (List Char) :=
  tokenizeSegF l.length l

/-- Splitting a character list on one separator character, keeping empty
pieces, mirroring the JavaScript split with a string separator. -/
def splitOnChar (sep : Char) : List Char → List (List Char)
  | [] => [[]]
  | c :: t =>
      if c == sep then [] :: splitOnChar sep t
      else
        match splitOnChar sep t with
        | [] => [[c]]
        | h :: r => (c :: h) :: r

/-- Collect up to n word tokens, skipping the non-word tokens in between:
the phrase-window collection loop (part_000 lines 549-555). -/
def collectWords : Nat → List (List Char) → List (List Char)
  | 0, _ => []
  | _, [] => []
  | n + 1, t :: rest =>
      if containsAlnum t then t :: collectWords n rest else collectWords (n + 1) rest

/-- Consume tokens up to and including the n-th word token (or everything, if
fewer words remain), returning the consumed display run and the remainder:
the display loop of a phrase match (part_000 lines 560-569, 581). -/
def splitAtWords : Nat → List (List Char) → List (List Char) × List (List Char)
  | _, [] => ([], [])
  | 0, l => ([], l)
  | n + 1, t :: rest =>
      if containsAlnum t then
        if n = 0 then ([t], rest)
        else
          let p := splitAtWords n rest
          (t :: p.1, p.2)
      else
        let p := splitAtWords (n + 1) rest
        (t :: p.1, p.2)

/-- Join with single spaces, mirroring the JavaScript join (part_000 line 557). -/
def joinSpace : List (List Char) → List Char
  | [] => []
  | [t] => t
  | t :: u :: rest => t ++ Char.ofNat 32 :: joinSpace (u :: rest)

/-- Lowercased phrase candidate for the window of the given length starting
at the current word token (part_000 lines 546-557). -/
def phraseKey (t : List Char) (rest : List (List Char)) (len : Nat) : List Char :=
  jsLowerL (joinSpace (t :: collectWords (len - 1) rest))

/-- Concatenation of the consumed tokens into the display text of a phrase. -/
def concatAll (ls : List (List Char)) : List Char :=
  ls.foldr (fun a b => a ++ b) []

/-- Render token emitted by the annotator: a blank span, a punctuation span,
one highlighted phrase (its lowercased lookup key and its display text), or a
single word span with its highlight flag. -/
inductive RTok where
  | ws (s : List Char)
  | punct (s : List Char)
  | phrase (key disp : List Char)
  | word (s : List Char) (isVocab : Bool)
deriving DecidableEq

/-- Discriminator for phrase tokens. -/
def isPhraseTok : RTok → Bool
  | .phrase _ _ => true
  | _ => false

/-- Fueled embedding of the render loop of renderTextSegment (part_000 lines
531-607): blanks and non-word runs pass through; at a word token the windows
of length 4, 3, 2 are probed in that order against the vocabulary keys, the
first hit emitting one phrase token and resuming the scan past the consumed
tokens; otherwise a single word token is emitted, highlighted exactly when
its lowercased form is a vocabulary key.  Every step consumes at least one
token, so fuel equal to the token count is always sufficient. -/
def renderTokensF (vocab : List (List Char)) : Nat → List (List Char) → List RTok
  | 0, _ => []
  | _, [] => []
  | fuel + 1, t :: rest =>
      if isBlankTok t then .ws t :: renderTokensF vocab fuel rest
      else if !containsAlnum t then .punct t :: renderTokensF vocab fuel rest
      else if phraseKey t rest 4 ∈ vocab then
        .phrase (phraseKey t rest 4) (concatAll (splitAtWords 4 (t :: rest)).1) ::
          renderTokensF vocab fuel (splitAtWords 4 (t :: rest)).2
      else if phraseKey t rest 3 ∈ vocab then
        .phrase (phraseKey t rest 3) (concatAll (splitAtWords 3 (t :: rest)).1) ::
          renderTokensF vocab fuel (splitAtWords 3 (t :: rest)).2
      else if phraseKey t rest 2 ∈ vocab then
        .phrase (phraseKey t rest 2) (concatAll (splitAtWords 2 (t :: rest)).1) ::
          renderTokensF vocab fuel (splitAtWords 2 (t :: rest)).2
      else .word t (decide (jsLowerL t ∈ vocab)) :: renderTokensF vocab fuel rest

/-- Render token sequence of one segment. -/
def renderTokens (vocab : List (List Char)) (toks : List (List Char)) : List RTok :=
  renderTokensF vocab toks.length toks

/-- Vocabulary keys of the index (part_000 lines 385-391): lowercased words. -/
def vocabKeys (vocabulary : List VocabularyItem) : List (List Char) :=
  vocabulary.map (fun item => jsLowerL item.word.data)

/-- Full rendering pipeline in the default PARAGRAPH mode (part_000 lines
612-621 and 651-663): split the text on newlines, skip blank segments, and
render each segment with the annotator. -/
def renderInteractiveText (vocab : List (List Char)) (text : List Char) : List RTok :=
  (splitOnChar (Char.ofNat 10) text).foldr
    (fun seg acc =>
      (if isBlankTok seg then [] else renderTokens vocab (tokenizeSeg seg)) ++ acc)
    []

/-- Words of a phrase entry: the entry split on single spaces. -/
def splitSpaces (l : List Char) : List (List Char) :=
  splitOnChar (Char.ofNat 32) l

/-- Lowercased word sequence of a whole text: the maximal word runs that
contain a letter or digit, in order.  This is the claim-side reading of an
occurrence that ignores interstitial punctuation and whitespace. -/
def textWords (text : List Char) : List (List Char) :=
  ((tokenizeSeg text).filter containsAlnum).map jsLowerL

/-- Claim-side statement that a phrase occurs contiguously in a text,
matching case-insensitively and ignoring interstitial punctuation and
whitespace: its lowercased words form a contiguous run of the lowercased
word sequence of the text. -/
def phraseOccursIn (text phrase : List Char) : Bool :=
  containsRun (textWords text) ((splitSpaces phrase).map jsLowerL)

/-! Helper lemmas. -/

/-- Grading with GOOD or EASY only advances the index and the reviewed count. -/
theorem handleGrade_nonHard {α : Type} [Inhabited α] (q : List α) (i r h : Nat)
    (d : Grade) (hd : d ≠ Grade.hard) :
    handleGrade ⟨q, i, r, h⟩ d = ⟨q, i + 1, r + 1, h⟩ := by
  cases d with
  | hard => exact absurd rfl hd
  | good => rfl
  | easy => rfl

/-- Running a sequence of non-HARD grades leaves the queue and the hard count
unchanged and advances index and reviewed by the number of grades. -/
theorem runGrades_nonHard {α : Type} [Inhabited α] (q : List α) (i r h : Nat)
    (ds : List Grade) (hds : ∀ d ∈ ds, d ≠ Grade.hard) :
    runGrades ⟨q, i, r, h⟩ ds = ⟨q, i + ds.length, r + ds.length, h⟩ := by
  induction ds generalizing i r with
  | nil => simp [runGrades]
  | cons d rest ih =>
      have hd : d ≠ Grade.hard := hds d (List.mem_cons_self d rest)
      have hrest : ∀ x ∈ rest, x ≠ Grade.hard := fun x hx => hds x (List.mem_cons_of_mem d hx)
      show runGrades (handleGrade ⟨q, i, r, h⟩ d) rest = _
      rw [handleGrade_nonHard q i r h d hd, ih (i + 1) (r + 1) hrest]
      simp [LearnState.mk.injEq]
      omega

/-- Element read at the old length after appending one element. -/
theorem getD_append_self {α : Type} (q : List α) (x d : α) :
    (q ++ [x]).getD q.length d = x := by
  induction q with
  | nil => rfl
  | cons a t ih => simp [List.getD_cons_succ, ih]

/-! Claim theorems. -/

/-- C9: for every input string, the analyze operation returns a result whose
text field equals the input string verbatim, regardless of the text the AI
response contains; title and vocabulary pass through from the parsed content. -/
theorem C9_analyze_preserves_text (text : String) (content : AnalyzeContent)
    (usage : TokenUsage) :
    (analyzeCustomText text content usage).text = text ∧
    (analyzeCustomText text content usage).title = content.title ∧
    (analyzeCustomText text content usage).vocabulary = content.vocabulary :=
  ⟨rfl, rfl, rfl⟩

/-- C10: on a saved-words list with no entry whose word equals the word of w,
toggling w twice returns the list unchanged: the first toggle appends w, the
second removes exactly it. -/
theorem C10_toggle_roundtrip (S : List VocabularyItem) (w : VocabularyItem)
    (h : ∀ v ∈ S, v.word ≠ w.word) :
    handleToggleSaveWord w (handleToggleSaveWord w S) = S := by
  have hany : S.any (fun x => x.word == w.word) = false := by
    rw [List.any_eq_false]
    intro v hv
    simpa using h v hv
  have h1 : handleToggleSaveWord w S = S ++ [w] := by
    simp [handleToggleSaveWord, hany]
  rw [h1]
  have hany2 : (S ++ [w]).any (fun x => x.word == w.word) = true := by
    simp
  have hfilter : S.filter (fun x => x.word != w.word) = S :=
    List.filter_eq_self.mpr (fun v hv => by simpa using h v hv)
  simp [handleToggleSaveWord, hany2, List.filter_append, hfilter]

/-- Witness for C10 at a concrete list and item. -/
theorem C10_witness :
    handleToggleSaveWord { word := "cat" }
        (handleToggleSaveWord { word := "cat" } [{ word := "dog" }]) =
      [{ word := "dog" }] :=
  C10_toggle_roundtrip [{ word := "dog" }] { word := "cat" } (by decide)

/-- C7 counterexample: the saved-words operations compare the word strings
with exact equality, not lowercased; toggling Cat over a saved cat does not
remove it but appends a second entry, and the membership test misses it,
although the two words agree ignoring case. -/
theorem C7_counterexample :
    jsLowerS "Cat" = jsLowerS "cat" ∧
    isSaved [{ word := "cat" }] { word := "Cat" } = false ∧
    handleToggleSaveWord { word := "Cat" } [{ word := "cat" }] =
      [{ word := "cat" }, { word := "Cat" }] := by
  refine ⟨by decide, by decide, by decide⟩

/-- C7 (amended): every operation on the saved-words collection identifies
items by the exact, case-sensitive word string: the membership test holds
exactly when an entry with the identical word string exists, toggle removes
exactly the entries with the identical word string when one exists and
appends otherwise, and remove deletes exactly the entries whose word equals
the given string. -/
theorem C7_amended_exact_word_identity (S : List VocabularyItem) (w : VocabularyItem)
    (ws : String) (v : VocabularyItem) :
    (isSaved S w = true ↔ ∃ u ∈ S, u.word = w.word) ∧
    ((∃ u ∈ S, u.word = w.word) →
      handleToggleSaveWord w S = S.filter (fun u => u.word != w.word)) ∧
    ((∀ u ∈ S, u.word ≠ w.word) → handleToggleSaveWord w S = S ++ [w]) ∧
    (v ∈ handleRemoveSavedWord ws S ↔ v ∈ S ∧ v.word ≠ ws) := by
  refine ⟨?_, ?_, ?_, ?_⟩
  · simp [isSaved, List.any_eq_true]
  · intro hex
    have hany : S.any (fun x => x.word == w.word) = true := by
      rw [List.any_eq_true]
      obtain ⟨u, hu, he⟩ := hex
      exact ⟨u, hu, by simpa using he⟩
    simp [handleToggleSaveWord, hany]
  · intro hall
    have hany : S.any (fun x => x.word == w.word) = false := by
      rw [List.any_eq_false]
      intro u hu
      simpa using hall u hu
    simp [handleToggleSaveWord, hany]
  · simp [handleRemoveSavedWord, List.mem_filter, bne_iff_ne]

/-- Witness for C7 (amended) at concrete lists and items. -/
theorem C7_witness :
    handleToggleSaveWord { word := "Cat" } [{ word := "cat" }] =
      [{ word := "cat" }] ++ [{ word := "Cat" }] ∧
    (({ word := "cat" } : VocabularyItem) ∈
      handleRemoveSavedWord "dog" [{ word := "cat" }]) := by
  constructor
  · exact (C7_amended_exact_word_identity [{ word := "cat" }] { word := "Cat" } "dog"
      { word := "cat" }).2.2.1 (by decide)
  · exact ((C7_amended_exact_word_identity [{ word := "cat" }] { word := "Cat" } "dog"
      { word := "cat" }).2.2.2).mpr ⟨by simp, by decide⟩

/-- C6: when the clicked text misses the vocabulary map and the external
lookup fails, the dispatcher does not propagate the failure: it produces a
displayable fallback item whose word is the clicked text, whose definition is
the non-empty failure message, and whose type is Unknown. -/
theorem C6_lookup_fallback (vocabulary : List VocabularyItem)
    (text clickedText errMsg : String)
    (hmiss : vocabMapGet vocabulary (cleanClickedText clickedText) = none) :
    (handleWordClickResult vocabulary text clickedText (Except.error errMsg)).word
        = clickedText ∧
    (handleWordClickResult vocabulary text clickedText (Except.error errMsg)).definition
        = "Unable to translate. Check connection." ∧
    (handleWordClickResult vocabulary text clickedText (Except.error errMsg)).definition
        ≠ "" ∧
    (handleWordClickResult vocabulary text clickedText (Except.error errMsg)).type
        = "Unknown" := by
  simp only [handleWordClickResult, hmiss]
  exact ⟨trivial, trivial, by decide, trivial⟩

/-- Witness for C6 at a concrete failing lookup. -/
theorem C6_witness :
    (handleWordClickResult [] "bar baz." "foo" (Except.error "Failed to fetch")).word
        = "foo" ∧
    (handleWordClickResult [] "bar baz." "foo" (Except.error "Failed to fetch")).definition
        = "Unable to translate. Check connection." ∧
    (handleWordClickResult [] "bar baz." "foo" (Except.error "Failed to fetch")).type
        = "Unknown" := by
  have h := C6_lookup_fallback [] "bar baz." "foo" "Failed to fetch" rfl
  exact ⟨h.1, h.2.1, h.2.2.2⟩

/-- C2: the queue shuffle of startLearning is the single-comparator random
sort.  Under the coin model of the random comparator driving the insertion
sort, the eight equally likely coin sequences of length three produce the
descending permutation twice but the identity once, so the six permutations
of a three-card list are not equally likely: the shuffle is not a fair
permutation algorithm, although every outcome is still a permutation. -/
theorem C2_comparator_shuffle_unfair :
    shuffleOutcomeCount [0, 1, 2] [2, 1, 0] 3 = 2 ∧
    shuffleOutcomeCount [0, 1, 2] [0, 1, 2] 3 = 1 ∧
    shuffleOutcomeCount [0, 1, 2] [2, 1, 0] 3 ≠
      shuffleOutcomeCount [0, 1, 2] [0, 1, 2] 3 ∧
    ((coinLists 3).all fun cs =>
      decide ((startLearningQueue cs [0, 1, 2]).Perm [0, 1, 2])) = true := by
  refine ⟨by decide, by decide, by decide, by decide⟩

/-- C3: from a non-empty queue of N cards, grading every card GOOD or EASY
exactly once keeps the queue at length N, reaches the finished state after
exactly N grading steps and not earlier, and ends the session with
reviewed = N and hard = 0. -/
theorem C3_good_easy_session {α : Type} [Inhabited α] (q : List α) (ds : List Grade)
    (hq : q ≠ []) (hlen : ds.length = q.length) (hds : ∀ d ∈ ds, d ≠ Grade.hard) :
    (runGrades (startLearningState q) ds).studyQueue.length = q.length ∧
    (runGrades (startLearningState q) ds).currentCardIndex = q.length ∧
    isFinished (runGrades (startLearningState q) ds) ∧
    (runGrades (startLearningState q) ds).reviewed = q.length ∧
    (runGrades (startLearningState q) ds).hard = 0 ∧
    ∀ k, k < ds.length → ¬ isFinished (runGrades (startLearningState q) (ds.take k)) := by
  have hrun : runGrades (startLearningState q) ds = ⟨q, ds.length, ds.length, 0⟩ := by
    simpa using runGrades_nonHard q 0 0 0 ds hds
  refine ⟨?_, ?_, ?_, ?_, ?_, ?_⟩
  · rw [hrun]
  · rw [hrun]; exact hlen
  · rw [hrun]; simp [isFinished, hlen]
  · rw [hrun]; exact hlen
  · rw [hrun]
  · intro k hk
    have htake : ∀ d ∈ ds.take k, d ≠ Grade.hard := fun d hd => hds d (List.take_subset k ds hd)
    have hmid : runGrades (startLearningState q) (ds.take k) =
        ⟨q, (ds.take k).length, (ds.take k).length, 0⟩ := by
      simpa using runGrades_nonHard q 0 0 0 (ds.take k) htake
    rw [hmid]
    simp only [isFinished, List.length_take]
    omega

/-- Witness for C3 on a concrete two-card queue. -/
theorem C3_witness :
    (runGrades (startLearningState ([10, 20] : List Nat)) [Grade.good, Grade.easy]).reviewed
        = 2 ∧
    (runGrades (startLearningState ([10, 20] : List Nat)) [Grade.good, Grade.easy]).hard
        = 0 ∧
    (runGrades (startLearningState ([10, 20] : List Nat)) [Grade.good, Grade.easy]).studyQueue.length
        = 2 ∧
    isFinished (runGrades (startLearningState ([10, 20] : List Nat)) [Grade.good, Grade.easy]) ∧
    ¬ isFinished (runGrades (startLearningState ([10, 20] : List Nat)) [Grade.good]) := by
  have h := C3_good_easy_session ([10, 20] : List Nat) [Grade.good, Grade.easy]
    (by decide) (by decide) (by decide)
  refine ⟨h.2.2.2.1, h.2.2.2.2.1, h.1, h.2.2.1, ?_⟩
  have h1 := h.2.2.2.2.2 1 (by decide)
  simpa using h1

/-- C4: from a non-empty queue of N cards, grading the first card HARD and
every later card GOOD ends the session after N + 1 steps with
reviewed = N + 1 and hard = 1; the first card is appended exactly once to the
end of the queue, and the card served at the final step is again the original
first card, so it is seen exactly twice. -/
theorem C4_hard_requeue_session {α : Type} [Inhabited α] (q : List α) (hq : q ≠ []) :
    (runGrades (startLearningState q)
        (Grade.hard :: List.replicate q.length Grade.good)).reviewed = q.length + 1 ∧
    (runGrades (startLearningState q)
        (Grade.hard :: List.replicate q.length Grade.good)).hard = 1 ∧
    (runGrades (startLearningState q)
        (Grade.hard :: List.replicate q.length Grade.good)).studyQueue
      = q ++ [q.getD 0 default] ∧
    (runGrades (startLearningState q)
        (Grade.hard :: List.replicate q.length Grade.good)).currentCardIndex
      = q.length + 1 ∧
    isFinished (runGrades (startLearningState q)
      (Grade.hard :: List.replicate q.length Grade.good)) ∧
    (runGrades (startLearningState q)
        (Grade.hard :: List.replicate q.length Grade.good)).studyQueue.getD q.length default
      = q.getD 0 default ∧
    (runGrades (startLearningState q)
        ((Grade.hard :: List.replicate q.length Grade.good).take q.length)).studyQueue.getD
      (runGrades (startLearningState q)
        ((Grade.hard :: List.replicate q.length Grade.good).take q.length)).currentCardIndex
      default = q.getD 0 default ∧
    ∀ k, k ≤ q.length →
      ¬ isFinished (runGrades (startLearningState q)
        ((Grade.hard :: List.replicate q.length Grade.good).take k)) := by
  have hq0 : 0 < q.length := List.length_pos.mpr hq
  have hfirst : handleGrade (startLearningState q) Grade.hard =
      ⟨q ++ [q.getD 0 default], 1, 1, 1⟩ := rfl
  have hrep : ∀ (n : Nat), ∀ d ∈ List.replicate n Grade.good, d ≠ Grade.hard := by
    intro n d hd
    rw [List.eq_of_mem_replicate hd]
    simp
  have hrun : runGrades (startLearningState q)
      (Grade.hard :: List.replicate q.length Grade.good)
      = ⟨q ++ [q.getD 0 default], 1 + q.length, 1 + q.length, 1⟩ := by
    show runGrades (handleGrade (startLearningState q) Grade.hard)
      (List.replicate q.length Grade.good) = _
    rw [hfirst]
    simpa using runGrades_nonHard (q ++ [q.getD 0 default]) 1 1 1
      (List.replicate q.length Grade.good) (hrep _)
  have hqlen : (q ++ [q.getD 0 default]).length = q.length + 1 := by simp
  refine ⟨?_, ?_, ?_, ?_, ?_, ?_, ?_, ?_⟩
  · rw [hrun]; simp [Nat.add_comm]
  · rw [hrun]
  · rw [hrun]
  · rw [hrun]; simp [Nat.add_comm]
  · rw [hrun]; simp only [isFinished, hqlen]; omega
  · rw [hrun]; exact getD_append_self q (q.getD 0 default) default
  · obtain ⟨n, hn⟩ : ∃ n, q.length = n + 1 := ⟨q.length - 1, by omega⟩
    have htake : (Grade.hard :: List.replicate q.length Grade.good).take q.length
        = Grade.hard :: List.replicate n Grade.good := by
      rw [hn, List.take_succ_cons, List.take_replicate]
      simp [Nat.min_eq_left (Nat.le_succ n)]
    have hmid : runGrades (startLearningState q)
        ((Grade.hard :: List.replicate q.length Grade.good).take q.length)
        = ⟨q ++ [q.getD 0 default], 1 + n, 1 + n, 1⟩ := by
      rw [htake]
      show runGrades (handleGrade (startLearningState q) Grade.hard)
        (List.replicate n Grade.good) = _
      rw [hfirst]
      simpa using runGrades_nonHard (q ++ [q.getD 0 default]) 1 1 1
        (List.replicate n Grade.good) (hrep _)
    rw [hmid]
    have hidx : 1 + n = q.length := by omega
    show (q ++ [q.getD 0 default]).getD (1 + n) default = q.getD 0 default
    rw [hidx]
    exact getD_append_self q (q.getD 0 default) default
  · intro k hk
    cases k with
    | zero =>
        simp only [List.take_zero]
        show ¬ isFinished (startLearningState q)
        simp only [isFinished, startLearningState]
        omega
    | succ m =>
        have hm : m < q.length := by omega
        have htake : (Grade.hard :: List.replicate q.length Grade.good).take (m + 1)
            = Grade.hard :: List.replicate m Grade.good := by
          rw [List.take_succ_cons, List.take_replicate]
          simp [Nat.min_eq_left (Nat.le_of_lt hm)]
        have hmid : runGrades (startLearningState q)
            ((Grade.hard :: List.replicate q.length Grade.good).take (m + 1))
            = ⟨q ++ [q.getD 0 default], 1 + m, 1 + m, 1⟩ := by
          rw [htake]
          show runGrades (handleGrade (startLearningState q) Grade.hard)
            (List.replicate m Grade.good) = _
          rw [hfirst]
          simpa using runGrades_nonHard (q ++ [q.getD 0 default]) 1 1 1
            (List.replicate m Grade.good) (hrep _)
        rw [hmid]
        simp only [isFinished, hqlen]
        omega

/-- Witness for C4 on a concrete two-card queue: three grading steps, the
first card appended once and served again at the end. -/
theorem C4_witness :
    (runGrades (startLearningState ([10, 20] : List Nat))
        (Grade.hard :: List.replicate 2 Grade.good)).reviewed = 3 ∧
    (runGrades (startLearningState ([10, 20] : List Nat))
        (Grade.hard :: List.replicate 2 Grade.good)).hard = 1 ∧
    (runGrades (startLearningState ([10, 20] : List Nat))
        (Grade.hard :: List.replicate 2 Grade.good)).studyQueue = [10, 20, 10] ∧
    isFinished (runGrades (startLearningState ([10, 20] : List Nat))
      (Grade.hard :: List.replicate 2 Grade.good)) := by
  have h := C4_hard_requeue_session ([10, 20] : List Nat) (by decide)
  exact ⟨h.1, h.2.1, h.2.2.1, h.2.2.2.2.1⟩

/-- Shape of a trace extended by one retry: one more attempt, one more 2000 ms
wait. -/
theorem withRetryWait_shape (t : CallTrace) (rc : Nat)
    (h1 : t.attemptsUsed = t.waits.length + 1) (h2 : t.waits.length ≤ rc)
    (h3 : ∀ w ∈ t.waits, w = 2000) :
    (withRetryWait t).attemptsUsed = (withRetryWait t).waits.length + 1 ∧
    (withRetryWait t).waits.length ≤ rc + 1 ∧
    ∀ w ∈ (withRetryWait t).waits, w = 2000 := by
  refine ⟨by simp [withRetryWait]; omega, by simp [withRetryWait]; omega, ?_⟩
  intro w hw
  simp only [withRetryWait, List.mem_cons] at hw
  rcases hw with h | h
  · exact h
  · exact h3 w h

/-- Shape of every attempt trace: attempts exceed waits by one, the wait
count never exceeds the retry budget, and every wait is 2000 ms. -/
theorem attempt_shape (env : Nat → AttemptOutcome) :
    ∀ retryCount idx : Nat,
      (attempt env idx retryCount).attemptsUsed
          = (attempt env idx retryCount).waits.length + 1 ∧
      (attempt env idx retryCount).waits.length ≤ retryCount ∧
      ∀ w ∈ (attempt env idx retryCount).waits, w = 2000 := by
  intro retryCount
  induction retryCount with
  | zero =>
      intro idx
      cases henv : env idx <;> simp [attempt, henv]
  | succ rc ih =>
      intro idx
      obtain ⟨h1, h2, h3⟩ := ih (idx + 1)
      cases henv : env idx with
      | success v => simp [attempt, henv]
      | badJson m =>
          by_cases hm : msgRetryable m = true
          · simp only [attempt, henv, hm, if_true]
            exact withRetryWait_shape _ rc h1 h2 h3
          · have hm' : msgRetryable m = false := by simpa using hm
            simp [attempt, henv, hm']
      | httpError s m =>
          by_cases hs : retryableStatus s = true
          · simp only [attempt, henv, hs, if_true]
            exact withRetryWait_shape _ rc h1 h2 h3
          · have hs' : retryableStatus s = false := by simpa using hs
            by_cases hm : msgRetryable m = true
            · simp only [attempt, henv, hs', hm, Bool.false_eq_true, if_false, if_true]
              exact withRetryWait_shape _ rc h1 h2 h3
            · have hm' : msgRetryable m = false := by simpa using hm
              simp [attempt, henv, hs', hm']
      | thrown m =>
          by_cases hm : msgRetryable m = true
          · simp only [attempt, henv, hm, if_true]
            exact withRetryWait_shape _ rc h1 h2 h3
          · have hm' : msgRetryable m = false := by simpa using hm
            simp [attempt, henv, hm']

/-- Environment for the C8 counterexample: the first fetch yields a
non-retryable HTTP 400 whose server-supplied error message happens to contain
the word fetch; the second yields an HTTP 400 with a plain message. -/
def env400 : Nat → AttemptOutcome := fun idx =>
  if idx = 0 then .httpError 400 "fetch quota exceeded" else .httpError 400 "Bad Request"

/-- C8 counterexample: a failure that is neither HTTP 429/5xx nor a network
failure does not always propagate immediately.  The thrown message of a 400
response is re-examined by the catch block of the same attempt, and because
it contains the word fetch the call is retried: two attempts and one 2000 ms
wait are observed instead of an immediate propagation. -/
theorem C8_counterexample :
    retryableStatus 400 = false ∧
    attempt env400 0 3 = ⟨CallResult.error "Bad Request", 2, [2000]⟩ := by
  refine ⟨by decide, by decide⟩

/-- C8 (amended): every trace performs one more attempt than it waits, waits
are bounded by the retry budget (three additional attempts at the entry
point) and each wait is exactly 2000 ms with no backoff growth; an HTTP
429/5xx with budget left retries after one wait, as does a network-class
rejection whose message contains fetch or network; an HTTP error with a
non-retryable status, a rejection, or a parse failure propagates immediately
with no wait - provided its error message does not contain fetch or network,
the message sniffing being the one deviation from the claim as stated. -/
theorem C8_amended_retry_policy (env : Nat → AttemptOutcome) (idx retryCount : Nat) :
    ((attempt env idx retryCount).attemptsUsed
        = (attempt env idx retryCount).waits.length + 1) ∧
    ((attempt env idx retryCount).waits.length ≤ retryCount) ∧
    (∀ w ∈ (attempt env idx retryCount).waits, w = 2000) ∧
    (∀ s m, env idx = .httpError s m → retryableStatus s = true → 0 < retryCount →
      attempt env idx retryCount = withRetryWait (attempt env (idx + 1) (retryCount - 1))) ∧
    (∀ m, env idx = .thrown m → msgRetryable m = true → 0 < retryCount →
      attempt env idx retryCount = withRetryWait (attempt env (idx + 1) (retryCount - 1))) ∧
    (∀ s m, env idx = .httpError s m → retryableStatus s = false → msgRetryable m = false →
      attempt env idx retryCount = ⟨.error m, 1, []⟩) ∧
    (∀ m, env idx = .thrown m → msgRetryable m = false →
      attempt env idx retryCount = ⟨.error m, 1, []⟩) ∧
    (∀ m, env idx = .badJson m → msgRetryable m = false →
      attempt env idx retryCount = ⟨.error m, 1, []⟩) ∧
    (∀ key, (callDeepSeek env (some key)).attemptsUsed ≤ 3 + 1) := by
  obtain ⟨h1, h2, h3⟩ := attempt_shape env retryCount idx
  refine ⟨h1, h2, h3, ?_, ?_, ?_, ?_, ?_, ?_⟩
  · intro s m henv hs hrc
    obtain ⟨rc, rfl⟩ : ∃ rc, retryCount = rc + 1 :=
      ⟨retryCount - 1, by omega⟩
    simp [attempt, henv, hs]
  · intro m henv hm hrc
    obtain ⟨rc, rfl⟩ : ∃ rc, retryCount = rc + 1 :=
      ⟨retryCount - 1, by omega⟩
    simp [attempt, henv, hm]
  · intro s m henv hs hm
    cases retryCount with
    | zero => simp [attempt, henv]
    | succ rc => simp [attempt, henv, hs, hm]
  · intro m henv hm
    cases retryCount with
    | zero => simp [attempt, henv]
    | succ rc => simp [attempt, henv, hm]
  · intro m henv hm
    cases retryCount with
    | zero => simp [attempt, henv]
    | succ rc => simp [attempt, henv, hm]
  · intro key
    obtain ⟨g1, g2, g3⟩ := attempt_shape env 3 0
    cases ht : (attempt env 0 3).result <;> simp [callDeepSeek, ht] <;> omega

/-- Witness for C8 (amended) on concrete environments: a 503 retries with one
2000 ms wait, a 418 with a plain message propagates immediately, the wait
count is bounded by the budget, and the entry point performs at most four
attempts. -/
theorem C8_witness :
    attempt (fun _ => AttemptOutcome.httpError 503 "Service Unavailable") 0 3
        = withRetryWait
          (attempt (fun _ => AttemptOutcome.httpError 503 "Service Unavailable") 1 2) ∧
    attempt (fun _ => AttemptOutcome.httpError 418 "teapot") 0 3
        = ⟨CallResult.error "teapot", 1, []⟩ ∧
    (attempt (fun _ => AttemptOutcome.thrown "Failed to fetch") 0 3).waits.length ≤ 3 ∧
    (callDeepSeek (fun _ => AttemptOutcome.httpError 503 "Service Unavailable")
      (some "key")).attemptsUsed ≤ 3 + 1 := by
  have h0 := C8_amended_retry_policy (fun _ => AttemptOutcome.httpError 503 "Service Unavailable") 0 3
  have h1 := C8_amended_retry_policy (fun _ => AttemptOutcome.httpError 418 "teapot") 0 3
  have h2 := C8_amended_retry_policy (fun _ => AttemptOutcome.thrown "Failed to fetch") 0 3
  refine ⟨?_, ?_, h2.2.1, h0.2.2.2.2.2.2.2.2 "key"⟩
  · exact h0.2.2.2.1 503 "Service Unavailable" rfl (by decide) (by decide)
  · exact h1.2.2.2.2.2.1 418 "teapot" rfl (by decide) (by decide)

/-- Loop of findSentence as a first-match search over the candidate list. -/
theorem firstSentenceWith_eq_find (target : List Char) (ss : List (List Char)) :
    firstSentenceWith target ss =
      match ss.find? (fun s => strIncludes (jsLowerL s) (jsLowerL target)) with
      | some s => jsTrim s
      | none => [] := by
  induction ss with
  | nil => rfl
  | cons s ss ih =>
      by_cases h : strIncludes (jsLowerL s) (jsLowerL target) = true
      · simp [firstSentenceWith, List.find?_cons, h]
      · have h' : strIncludes (jsLowerL s) (jsLowerL target) = false := by simpa using h
        simp [firstSentenceWith, List.find?_cons, h', ih]

/-- C5 counterexample: under the splitting the claim describes, the text
consists of the sentences A-period and space-B, the second contains the token
B, so the context should be its trim; but the code only matches
terminator-ended sentences, drops the trailing fragment, and returns the
empty context. -/
theorem C5_counterexample :
    specSplitSentences "A. B".data = ["A.".data, " B".data] ∧
    strIncludes (jsLowerL " B".data) (jsLowerL "B".data) = true ∧
    specFindSentence "A. B".data "B".data = "B".data ∧
    sentencesOf "A. B".data = ["A.".data] ∧
    findSentence "A. B".data "B".data = [] ∧
    "B".data ≠ ([] : List Char) := by
  refine ⟨by decide, by decide, by decide, by decide, by decide, by decide⟩

/-- C5 (amended): the lookup context is the trimmed first candidate sentence
containing the clicked token case-insensitively, and empty when none does;
the candidates are the terminator-ended sentences of the text - a trailing
fragment with no terminator is not a candidate - with the whole text as the
sole candidate when no sentence matched at all.  On the example text, every
token of the second sentence resolves the context to exactly the second
sentence. -/
theorem C5_amended_context_resolution (text target : List Char) :
    ((sentencesOf text).find? (fun s => strIncludes (jsLowerL s) (jsLowerL target))
        = none → findSentence text target = []) ∧
    (∀ s, (sentencesOf text).find? (fun s => strIncludes (jsLowerL s) (jsLowerL target))
        = some s →
      findSentence text target = jsTrim s ∧
      strIncludes (jsLowerL s) (jsLowerL target) = true ∧ s ∈ sentencesOf text) ∧
    findSentence "The cat sat on the mat. It was happy.".data "It".data
        = "It was happy.".data ∧
    findSentence "The cat sat on the mat. It was happy.".data "was".data
        = "It was happy.".data ∧
    findSentence "The cat sat on the mat. It was happy.".data "happy".data
        = "It was happy.".data := by
  refine ⟨?_, ?_, by decide, by decide, by decide⟩
  · intro hnone
    rw [findSentence, firstSentenceWith_eq_find, hnone]
  · intro s hs
    refine ⟨by rw [findSentence, firstSentenceWith_eq_find, hs], ?_, ?_⟩
    · exact List.find?_some (p := fun s => strIncludes (jsLowerL s) (jsLowerL target)) hs
    · exact List.mem_of_find?_eq_some (p := fun s => strIncludes (jsLowerL s) (jsLowerL target)) hs

/-- Witness for C5 (amended) on a concrete text whose second sentence holds
the token. -/
theorem C5_witness :
    findSentence "A b. C d.".data "d".data = "C d.".data := by
  have h := (C5_amended_context_resolution "A b. C d.".data "d".data).2.1
    " C d.".data (by decide)
  rw [h.1]
  decide

/-- An ASCII letter or digit is not whitespace. -/
theorem alnum_not_space (c : Char) (h : isAsciiAlnum c = true) : isJsSpace c = false := by
  rw [isAsciiAlnum, decide_eq_true_eq] at h
  rw [isJsSpace, decide_eq_false_iff_not]
  omega

/-- A token containing a letter or digit is not blank. -/
theorem not_blank_of_containsAlnum (t : List Char) (h : containsAlnum t = true) :
    isBlankTok t = false := by
  rw [containsAlnum, List.any_eq_true] at h
  obtain ⟨c, hc, hal⟩ := h
  rw [isBlankTok]
  exact List.all_eq_false.mpr ⟨c, hc, by simp [alnum_not_space c hal]⟩

/-- The remainder of a phrase consumption is never longer than the input. -/
theorem splitAtWords_snd_le (n : Nat) (l : List (List Char)) :
    (splitAtWords n l).2.length ≤ l.length := by
  induction l generalizing n with
  | nil => cases n <;> simp [splitAtWords]
  | cons t rest ih =>
      cases n with
      | zero => simp [splitAtWords]
      | succ m =>
          simp only [splitAtWords]
          by_cases ha : containsAlnum t = true
          · rw [if_pos ha]
            by_cases hm : m = 0
            · rw [if_pos hm]
              simp
            · rw [if_neg hm]
              show (splitAtWords m rest).2.length ≤ (t :: rest).length
              calc (splitAtWords m rest).2.length ≤ rest.length := ih m
                _ ≤ (t :: rest).length := by simp
          · rw [if_neg ha]
            show (splitAtWords (m + 1) rest).2.length ≤ (t :: rest).length
            calc (splitAtWords (m + 1) rest).2.length ≤ rest.length := ih (m + 1)
              _ ≤ (t :: rest).length := by simp

/-- A phrase consumption with positive word count always consumes the head. -/
theorem splitAtWords_snd_cons_le (n : Nat) (t : List Char) (rest : List (List Char)) :
    (splitAtWords (n + 1) (t :: rest)).2.length ≤ rest.length := by
  simp only [splitAtWords]
  by_cases ha : containsAlnum t = true
  · rw [if_pos ha]
    by_cases hn : n = 0
    · rw [if_pos hn]
    · rw [if_neg hn]
      show (splitAtWords n rest).2.length ≤ rest.length
      exact splitAtWords_snd_le n rest
  · rw [if_neg ha]
    show (splitAtWords (n + 1) rest).2.length ≤ rest.length
    exact splitAtWords_snd_le (n + 1) rest

/-- The render scan is fuel-irrelevant once the fuel covers the token count. -/
theorem renderTokensF_fuel (vocab : List (List Char)) :
    ∀ f1 f2 (l : List (List Char)), l.length ≤ f1 → l.length ≤ f2 →
      renderTokensF vocab f1 l = renderTokensF vocab f2 l := by
  intro f1
  induction f1 with
  | zero =>
      intro f2 l h1 _
      have hl : l = [] := List.length_eq_zero.mp (Nat.le_zero.mp h1)
      subst hl
      cases f2 <;> simp [renderTokensF]
  | succ f ih =>
      intro f2 l h1 h2
      cases l with
      | nil => cases f2 <;> simp [renderTokensF]
      | cons t rest =>
          cases f2 with
          | zero => simp at h2
          | succ g =>
              have hr : rest.length ≤ f := by simp at h1; omega
              have hg : rest.length ≤ g := by simp at h2; omega
              by_cases hb : isBlankTok t = true
              · simp [renderTokensF, hb, ih g rest hr hg]
              · have hb' : isBlankTok t = false := by simpa using hb
                by_cases ha : containsAlnum t = true
                · by_cases k4 : phraseKey t rest 4 ∈ vocab
                  · have hlen : ((splitAtWords 4 (t :: rest)).2).length ≤ rest.length :=
                      splitAtWords_snd_cons_le 3 t rest
                    have htail := ih g ((splitAtWords 4 (t :: rest)).2)
                      (le_trans hlen hr) (le_trans hlen hg)
                    simp [renderTokensF, hb', ha, k4, htail]
                  · by_cases k3 : phraseKey t rest 3 ∈ vocab
                    · have hlen : ((splitAtWords 3 (t :: rest)).2).length ≤ rest.length :=
                        splitAtWords_snd_cons_le 2 t rest
                      have htail := ih g ((splitAtWords 3 (t :: rest)).2)
                        (le_trans hlen hr) (le_trans hlen hg)
                      simp [renderTokensF, hb', ha, k4, k3, htail]
                    · by_cases k2 : phraseKey t rest 2 ∈ vocab
                      · have hlen : ((splitAtWords 2 (t :: rest)).2).length ≤ rest.length :=
                          splitAtWords_snd_cons_le 1 t rest
                        have htail := ih g ((splitAtWords 2 (t :: rest)).2)
                          (le_trans hlen hr) (le_trans hlen hg)
                        simp [renderTokensF, hb', ha, k4, k3, k2, htail]
                      · simp [renderTokensF, hb', ha, k4, k3, k2, ih g rest hr hg]
                · have ha' : containsAlnum t = false := by simpa using ha
                  simp [renderTokensF, hb', ha', ih g rest hr hg]

/-- One scan step at a non-blank word token, with the four branch conditions
spelled out. -/
theorem renderTokensF_word_step (vocab : List (List Char)) (f : Nat) (t : List Char)
    (rest : List (List Char)) (hblank : isBlankTok t = false)
    (halnum : containsAlnum t = true) :
    renderTokensF vocab (f + 1) (t :: rest) =
      if phraseKey t rest 4 ∈ vocab then
        RTok.phrase (phraseKey t rest 4) (concatAll (splitAtWords 4 (t :: rest)).1) ::
          renderTokensF vocab f (splitAtWords 4 (t :: rest)).2
      else if phraseKey t rest 3 ∈ vocab then
        RTok.phrase (phraseKey t rest 3) (concatAll (splitAtWords 3 (t :: rest)).1) ::
          renderTokensF vocab f (splitAtWords 3 (t :: rest)).2
      else if phraseKey t rest 2 ∈ vocab then
        RTok.phrase (phraseKey t rest 2) (concatAll (splitAtWords 2 (t :: rest)).1) ::
          renderTokensF vocab f (splitAtWords 2 (t :: rest)).2
      else RTok.word t (decide (jsLowerL t ∈ vocab)) :: renderTokensF vocab f rest := by
  simp [renderTokensF, hblank, halnum]

/-- C1 counterexample: the phrase sat-on is a two-word vocabulary entry and
occurs contiguously in the text, its two words separated only by whitespace;
but the whitespace is a newline, the pipeline splits the text into paragraph
segments first, and the two words are rendered as two separate plain word
tokens - no phrase token is emitted at all. -/
theorem C1_counterexample :
    "sat on".data ∈ ["sat on".data] ∧
    (splitSpaces "sat on".data).length = 2 ∧
    phraseOccursIn "sat\non".data "sat on".data = true ∧
    (renderInteractiveText ["sat on".data] "sat\non".data).all
      (fun r => !isPhraseTok r) = true ∧
    renderInteractiveText ["sat on".data] "sat\non".data =
      [RTok.word "sat".data false, RTok.word "on".data false] := by
  refine ⟨by decide, by decide, by decide, by decide, by decide⟩

/-- C1 (amended): within one segment, whenever the scan stands at a word
token that starts a matching window of two to four words - joined with
single spaces, lowercased, skipping interstitial non-word tokens - the
annotator emits one single highlighted phrase token for the longest matching
window, consuming the interstitial punctuation into its display text, and in
particular never emits the word as a separate single-word token.  Occurrences
split across segments, and occurrences whose first word the scan has already
consumed into an earlier phrase, are outside this guarantee, as the
counterexample shows. -/
theorem C1_amended_phrase_single_token (vocab : List (List Char)) (t : List Char)
    (rest : List (List Char)) (len : Nat) (h2 : 2 ≤ len) (h4 : len ≤ 4)
    (halnum : containsAlnum t = true) (hkey : phraseKey t rest len ∈ vocab) :
    ∃ len2, 2 ≤ len2 ∧ len2 ≤ 4 ∧ phraseKey t rest len2 ∈ vocab ∧
      renderTokens vocab (t :: rest) =
        RTok.phrase (phraseKey t rest len2) (concatAll (splitAtWords len2 (t :: rest)).1) ::
          renderTokens vocab (splitAtWords len2 (t :: rest)).2 ∧
      ∀ s b rs, renderTokens vocab (t :: rest) ≠ RTok.word s b :: rs := by
  have hblank : isBlankTok t = false := not_blank_of_containsAlnum t halnum
  have hunfold : renderTokens vocab (t :: rest) =
      renderTokensF vocab (rest.length + 1) (t :: rest) := rfl
  have hstep := renderTokensF_word_step vocab rest.length t rest hblank halnum
  by_cases k4 : phraseKey t rest 4 ∈ vocab
  · rw [if_pos k4] at hstep
    have hlen : ((splitAtWords 4 (t :: rest)).2).length ≤ rest.length :=
      splitAtWords_snd_cons_le 3 t rest
    have hfix : renderTokensF vocab rest.length ((splitAtWords 4 (t :: rest)).2)
        = renderTokens vocab ((splitAtWords 4 (t :: rest)).2) :=
      renderTokensF_fuel vocab rest.length _ _ hlen (le_refl _)
    have hmain : renderTokens vocab (t :: rest) =
        RTok.phrase (phraseKey t rest 4) (concatAll (splitAtWords 4 (t :: rest)).1) ::
          renderTokens vocab ((splitAtWords 4 (t :: rest)).2) := by
      rw [hunfold, hstep, hfix]
    refine ⟨4, by omega, by omega, k4, hmain, ?_⟩
    intro s b rs heq
    rw [hmain] at heq
    simp at heq
  · rw [if_neg k4] at hstep
    by_cases k3 : phraseKey t rest 3 ∈ vocab
    · rw [if_pos k3] at hstep
      have hlen : ((splitAtWords 3 (t :: rest)).2).length ≤ rest.length :=
        splitAtWords_snd_cons_le 2 t rest
      have hfix : renderTokensF vocab rest.length ((splitAtWords 3 (t :: rest)).2)
          = renderTokens vocab ((splitAtWords 3 (t :: rest)).2) :=
        renderTokensF_fuel vocab rest.length _ _ hlen (le_refl _)
      have hmain : renderTokens vocab (t :: rest) =
          RTok.phrase (phraseKey t rest 3) (concatAll (splitAtWords 3 (t :: rest)).1) ::
            renderTokens vocab ((splitAtWords 3 (t :: rest)).2) := by
        rw [hunfold, hstep, hfix]
      refine ⟨3, by omega, by omega, k3, hmain, ?_⟩
      intro s b rs heq
      rw [hmain] at heq
      simp at heq
    · rw [if_neg k3] at hstep
      by_cases k2 : phraseKey t rest 2 ∈ vocab
      · rw [if_pos k2] at hstep
        have hlen : ((splitAtWords 2 (t :: rest)).2).length ≤ rest.length :=
          splitAtWords_snd_cons_le 1 t rest
        have hfix : renderTokensF vocab rest.length ((splitAtWords 2 (t :: rest)).2)
            = renderTokens vocab ((splitAtWords 2 (t :: rest)).2) :=
          renderTokensF_fuel vocab rest.length _ _ hlen (le_refl _)
        have hmain : renderTokens vocab (t :: rest) =
            RTok.phrase (phraseKey t rest 2) (concatAll (splitAtWords 2 (t :: rest)).1) ::
              renderTokens vocab ((splitAtWords 2 (t :: rest)).2) := by
          rw [hunfold, hstep, hfix]
        refine ⟨2, by omega, by omega, k2, hmain, ?_⟩
        intro s b rs heq
        rw [hmain] at heq
        simp at heq
      · exfalso
        interval_cases len
        · exact k2 hkey
        · exact k3 hkey
        · exact k4 hkey

/-- Witness for C1 (amended): at the word sat followed by a comma token and
the word on, the two-word window matches the vocabulary entry, and the scan
emits one phrase token whose display text keeps the interstitial comma. -/
theorem C1_amended_witness :
    renderTokens ["sat on".data] ["sat".data, ", ".data, "on".data]
        = [RTok.phrase "sat on".data "sat, on".data] ∧
    containsAlnum "sat".data = true ∧
    phraseKey "sat".data [", ".data, "on".data] 2 ∈ ["sat on".data] ∧
    (∃ len2, 2 ≤ len2 ∧ len2 ≤ 4 ∧
      phraseKey "sat".data [", ".data, "on".data] len2 ∈ ["sat on".data] ∧
      renderTokens ["sat on".data] ("sat".data :: [", ".data, "on".data]) =
        RTok.phrase (phraseKey "sat".data [", ".data, "on".data] len2)
            (concatAll (splitAtWords len2 ("sat".data :: [", ".data, "on".data])).1) ::
          renderTokens ["sat on".data]
            (splitAtWords len2 ("sat".data :: [", ".data, "on".data])).2 ∧
      ∀ s b rs, renderTokens ["sat on".data] ("sat".data :: [", ".data, "on".data])
        ≠ RTok.word s b :: rs) := by
  refine ⟨by decide, by decide, by decide, ?_⟩
  exact C1_amended_phrase_single_token ["sat on".data] "sat".data
    [", ".data, "on".data] 2 (by decide) (by decide) (by decide) (by decide)

end ETS
